import Mathlib

/-!
Shallow embedding of the EEG acquisition system's core services
(`src/services/tgam_parser.py`, `src/services/eeg_data_coordinator.py`,
`src/services/frequency_band_processor.py`, `src/services/data_processor.py`).

Conventions of the embedding:
* Python byte values and unbounded ints are modelled as `Nat` (with explicit
  `% 256` where the code masks), signed results as `Int`, and Python floats as
  exact rationals `ℚ` (the float literals of the source, such as `0.516`, are
  carried as the exact rationals they denote).
* Stateful classes become structures, methods become state-passing functions.
* `collections.deque(maxlen := n)` becomes a list together with an append that
  drops from the left once the capacity is exceeded.
-/

namespace EEGSys

/-- Decoded records produced by `TGAMDataStreamParser._parse_payload`
(the dictionaries appended to `parsed_data_list`, keyed by their `type`). -/
inductive ParsedData where
  | rawEeg (rawValue : Int) (eegUv : ℚ)
  | signalQuality (q : Nat)
  | attention (v : Nat)
  | meditation (v : Nat)
  | blink (strength : Nat)
  | eegPower (powers : List Nat)
deriving DecidableEq, Repr

/-- The big-endian 3-byte read `(payload[i] << 16) | (payload[i+1] << 8) | payload[i+2]`
performed by the EEG-power branch of `_parse_payload`. -/
def bytes3 : List Nat → Nat
  | a :: b :: c :: _ => a * 65536 + b * 256 + c
  | _ => 0

/-- The loop `for i in range(8)` of the EEG-power branch: reads `n` consecutive
3-byte big-endian values. -/
def readPowers : Nat → List Nat → List Nat
  | 0, _ => []
  | n + 1, l => bytes3 l :: readPowers n (l.drop 3)

/-- `TGAMDataStreamParser._parse_payload`'s `while index < len(payload)` loop.
The list argument is `payload[index:]`; the fuel argument dominates the number
of loop iterations (the index strictly increases each iteration, so
`payload.length` iterations suffice).  Branches follow the source exactly:
each tag is handled when enough bytes remain, any other situation ends the
loop (`break`). -/
def parsePayloadAux : Nat → List Nat → List ParsedData
  | 0, _ => []
  | _, [] => []
  | fuel + 1, t :: rest =>
    if t = 0x80 ∧ 2 ≤ rest.length then
      match rest with
      | a :: b :: rest2 =>
        let raw0 : Nat := a * 256 + b
        let raw : Int := if raw0 > 32767 then (raw0 : Int) - 65536 else (raw0 : Int)
        .rawEeg raw ((raw : ℚ) * (129 / 250)) :: parsePayloadAux fuel rest2
      | _ => []
    else if t = 0x02 ∧ 1 ≤ rest.length then
      match rest with
      | v :: rest2 => .signalQuality v :: parsePayloadAux fuel rest2
      | _ => []
    else if t = 0x04 ∧ 1 ≤ rest.length then
      match rest with
      | v :: rest2 => .attention v :: parsePayloadAux fuel rest2
      | _ => []
    else if t = 0x05 ∧ 1 ≤ rest.length then
      match rest with
      | v :: rest2 => .meditation v :: parsePayloadAux fuel rest2
      | _ => []
    else if t = 0x16 ∧ 1 ≤ rest.length then
      match rest with
      | v :: rest2 => .blink v :: parsePayloadAux fuel rest2
      | _ => []
    else if t = 0x83 ∧ 25 ≤ rest.length then
      match rest with
      | pdl :: rest2 =>
        if pdl = 24 ∧ 24 ≤ rest2.length then
          .eegPower (readPowers 8 rest2) :: parsePayloadAux fuel (rest2.drop 24)
        else
          parsePayloadAux fuel (rest2.drop pdl)
      | _ => []
    else
      []

/-- `TGAMDataStreamParser._parse_payload` (the early `if not payload: return`
is subsumed: the loop body never runs on an empty list). -/
def parsePayload (payload : List Nat) : List ParsedData :=
  parsePayloadAux payload.length payload

/-- The mutable fields of `TGAMDataStreamParser` that drive `_parse_byte`
(`parsed_data_list` is modelled as the output of the step functions). -/
structure ParserState where
  state : Nat
  payloadLength : Nat
  payloadData : List Nat
  checksum : Nat
deriving DecidableEq, Repr

/-- The state set up by `TGAMDataStreamParser.__init__` (and restored by
`clear_buffer`). -/
def freshParser : ParserState := ⟨0, 0, [], 0⟩

/-- `(~checksum) & 0xFF` for a non-negative Python int `checksum`:
`(~c) & 0xFF = 255 - c % 256`. -/
def calcChecksum (c : Nat) : Nat := 255 - c % 256

/-- `TGAMDataStreamParser._parse_byte`: one byte of the state machine,
returning the updated state and the records appended to `parsed_data_list`
by this byte. -/
def parseByte (s : ParserState) (b : Nat) : ParserState × List ParsedData :=
  if s.state = 0 then
    (if b = 0xAA then { s with state := 1 } else s, [])
  else if s.state = 1 then
    (if b = 0xAA then { s with state := 2 } else { s with state := 0 }, [])
  else if s.state = 2 then
    ({ s with payloadLength := b, payloadData := [], checksum := 0, state := 3 }, [])
  else if s.state = 3 then
    let pd := s.payloadData ++ [b]
    let s' := { s with payloadData := pd, checksum := s.checksum + b }
    (if pd.length = s.payloadLength then { s' with state := 4 } else s', [])
  else if s.state = 4 then
    if b = calcChecksum s.checksum then
      ({ s with state := 0 }, parsePayload s.payloadData)
    else
      ({ s with state := 0 }, [])
  else
    (s, [])

/-- State after feeding a byte. -/
def stepState (s : ParserState) (b : Nat) : ParserState := (parseByte s b).1

/-- Records emitted while feeding a byte. -/
def stepOut (s : ParserState) (b : Nat) : List ParsedData := (parseByte s b).2

/-- Parser state after `parse_stream(data)`'s `for byte in data` loop. -/
def runState (s : ParserState) (data : List Nat) : ParserState :=
  data.foldl stepState s

/-- The list returned by `parse_stream(data)` (it is reset to `[]` on entry,
then each byte appends its records in order). -/
def runOut : ParserState → List Nat → List ParsedData
  | _, [] => []
  | s, b :: l => stepOut s b ++ runOut (stepState s b) l

/-- A sequence of `parse_stream` calls on the same parser object: the state
carries over from call to call; the returned record lists are concatenated
in call order. -/
def feedCalls : ParserState → List (List Nat) → ParserState × List ParsedData
  | s, [] => (s, [])
  | s, c :: cs =>
    let rest := feedCalls (runState s c) cs
    (rest.1, runOut s c ++ rest.2)

/-- A correctly framed packet for payload `B`:
two sync bytes, the length byte, the payload, and the matching checksum. -/
def packetOf (B : List Nat) : List Nat :=
  [0xAA, 0xAA, B.length] ++ B ++ [calcChecksum B.sum]

/-- A stream of framed packets, each preceded by its chunk of spurious bytes. -/
def goodStream : List (List Nat × List Nat) → List Nat
  | [] => []
  | (g, B) :: rest => g ++ packetOf B ++ goodStream rest

/-- Length bookkeeping invariant of the decoder state: the declared payload
length is a byte value and the accumulated payload bytes stay within it
(strictly while more payload bytes are still expected). -/
def ParserInv (s : ParserState) : Prop :=
  s.payloadLength ≤ 255 ∧ s.payloadData.length ≤ s.payloadLength ∧
    (s.state = 3 → s.payloadData.length < s.payloadLength)

/-! ### Frequency band engine (`src/services/frequency_band_processor.py`) -/

/-- `collections.deque(maxlen := cap).append(x)`: append on the right and drop
from the left whenever the capacity is exceeded. -/
def dequeAppend (cap : Nat) (l : List ℚ) (x : ℚ) : List ℚ :=
  let l' := l ++ [x]
  if cap < l'.length then l'.drop (l'.length - cap) else l'

/-- The eight fixed keys of `FrequencyBandProcessor.frequency_bands`. -/
inductive Band where
  | delta | theta | alphaLow | alphaHigh | betaLow | betaHigh | gammaLow | gammaHigh
deriving DecidableEq, Repr

/-- The `(low_hz, high_hz)` ranges of `FrequencyBandProcessor.frequency_bands`. -/
def frequencyBands : Band → ℚ × ℚ
  | .delta => (1 / 2, 4)
  | .theta => (4, 8)
  | .alphaLow => (8, 10)
  | .alphaHigh => (10, 13)
  | .betaLow => (13, 20)
  | .betaHigh => (20, 30)
  | .gammaLow => (30, 50)
  | .gammaHigh => (50, 100)

/-- The filtering strategy stored for a band: a `scipy.signal.butter` band-pass
design (an entry in `self.filters`) or the `None` entry that makes
`_filter_signal` fall back to `_simple_moving_average(data, 8)`. -/
inductive FilterChoice where
  | bandpass (order : Nat) (lowNorm highNorm : ℚ)
  | movingAverage (window : Nat)
deriving DecidableEq, Repr

/-- The clamping `max(0.001, min(x, 0.99))` applied by `_create_filters` to each
normalized band edge. -/
def clampNorm (x : ℚ) : ℚ := max (1 / 1000) (min x (99 / 100))

/-- `FrequencyBandProcessor._create_filters` for one band: normalize the edges
by Nyquist, clamp both into `[0.001, 0.99]` and design a 4th-order Butterworth
band-pass when the clamped edges are ordered, otherwise store `None` (moving
average of window 8 at filter time).  `scipy.signal.butter` succeeds whenever
the normalized edges are strictly between 0 and 1 with low < high — which the
clamped values always satisfy — so the `except ValueError` branch is modelled
as unreachable. -/
def filterChoice (sampleRate : ℚ) (b : Band) : FilterChoice :=
  let nyquist := sampleRate / 2
  let lowNorm := clampNorm ((frequencyBands b).1 / nyquist)
  let highNorm := clampNorm ((frequencyBands b).2 / nyquist)
  if lowNorm < highNorm then .bandpass 4 lowNorm highNorm else .movingAverage 8

/-- The clamped low band edge actually used by `_create_filters`. -/
def clampedLow (sampleRate : ℚ) (b : Band) : ℚ :=
  clampNorm ((frequencyBands b).1 / (sampleRate / 2))

/-- The clamped high band edge actually used by `_create_filters`. -/
def clampedHigh (sampleRate : ℚ) (b : Band) : ℚ :=
  clampNorm ((frequencyBands b).2 / (sampleRate / 2))

/-- Modelled from the spec for the comparison in C7: the band edges are
"valid" when, normalized by Nyquist, "both [are] within (0, 1)" and
"low < high" (before any clamping). -/
def specValidEdges (sampleRate : ℚ) (b : Band) : Prop :=
  let nyquist := sampleRate / 2
  0 < (frequencyBands b).1 / nyquist ∧ (frequencyBands b).1 / nyquist < 1 ∧
    0 < (frequencyBands b).2 / nyquist ∧ (frequencyBands b).2 / nyquist < 1 ∧
    (frequencyBands b).1 / nyquist < (frequencyBands b).2 / nyquist

/-- Mutable state of `FrequencyBandProcessor`.  `recomputeCount` instruments
the embedding: it counts executions of the `_process_frequency_bands` body
(one full-window frequency-band recompute each). -/
structure FrequencyBandProcessor where
  sampleRate : ℚ
  bufferSize : Nat
  rawEegBuffer : List ℚ
  filteredSignals : Band → List ℚ
  recomputeCount : Nat

/-- `FrequencyBandProcessor.__init__`. -/
def freshFBP (sampleRate : ℚ) (bufferSize : Nat) : FrequencyBandProcessor :=
  ⟨sampleRate, bufferSize, [], fun _ => [], 0⟩

/-- `FrequencyBandProcessor._process_frequency_bands`.  The value appended per
band (last sample of `filtfilt`/moving-average output, or the raw last sample)
is abstracted by the parameter `filt`, since it comes from `scipy`; which value
it is does not affect any claim below. -/
def processFrequencyBands (filt : Band → List ℚ → ℚ) (p : FrequencyBandProcessor) :
    FrequencyBandProcessor :=
  if p.rawEegBuffer.length < 64 then p
  else
    { p with
      filteredSignals := fun b =>
        dequeAppend p.bufferSize (p.filteredSignals b) (filt b p.rawEegBuffer),
      recomputeCount := p.recomputeCount + 1 }

/-- `FrequencyBandProcessor.add_eeg_data`: push into the ring buffer, and run a
recompute once at least 64 samples are buffered. -/
def addEegData (filt : Band → List ℚ → ℚ) (p : FrequencyBandProcessor) (v : ℚ) :
    FrequencyBandProcessor :=
  let p' := { p with rawEegBuffer := dequeAppend p.bufferSize p.rawEegBuffer v }
  if 64 ≤ p'.rawEegBuffer.length then processFrequencyBands filt p' else p'

/-- `FrequencyBandProcessor.clear_buffers`. -/
def clearBuffersFBP (p : FrequencyBandProcessor) : FrequencyBandProcessor :=
  { p with rawEegBuffer := [], filteredSignals := fun _ => [] }

/-! ### Stream coordinator (`src/services/eeg_data_coordinator.py`) -/

/-- The fields of `EEGDataCoordinator` touched by the raw-EEG data path.
`tempBufferSize` is a Python int (it may be set through
`set_temp_buffer_size`), hence `Int`. -/
structure EEGDataCoordinator where
  sampleRate : ℚ
  bufferSize : Nat
  fbp : FrequencyBandProcessor
  latestRawEeg : ℚ
  latestFrequencyBands : Band → ℚ
  rawEegBuffer : List ℚ
  eegUvBuffer : List ℚ
  isProcessing : Bool
  tempBuffer : List ℚ
  tempBufferSize : Int

/-- `EEGDataCoordinator.__init__` with the default arguments
(`sample_rate = 512`, `buffer_size = 1000`, batch threshold 64). -/
def freshCoordinator : EEGDataCoordinator :=
  ⟨512, 1000, freshFBP 512 1000, 0, fun _ => 0, [], [], true, [], 64⟩

/-- `EEGDataCoordinator._process_band_data`: early return unless processing is
on and the batch threshold is reached; otherwise feed every buffered sample to
the band engine, cache the latest band values, and clear the batch buffer. -/
def processBandData (filt : Band → List ℚ → ℚ) (c : EEGDataCoordinator) :
    EEGDataCoordinator :=
  if ¬c.isProcessing ∨ (c.tempBuffer.length : Int) < c.tempBufferSize then c
  else
    let fbp' := c.tempBuffer.foldl (addEegData filt) c.fbp
    { c with
      fbp := fbp',
      latestFrequencyBands := fun b => (fbp'.filteredSignals b).getLastD 0,
      tempBuffer := [] }

/-- The `'eeg_uv'` branch of `EEGDataCoordinator.process_eeg_data` for one raw
sample: update caches and buffers, extend the batch buffer, and trigger
`_process_band_data` once the batch threshold is reached. -/
def processEegUv (filt : Band → List ℚ → ℚ) (c : EEGDataCoordinator) (v : ℚ) :
    EEGDataCoordinator :=
  let c' := { c with
    latestRawEeg := v,
    rawEegBuffer := dequeAppend c.bufferSize c.rawEegBuffer v,
    eegUvBuffer := dequeAppend c.bufferSize c.eegUvBuffer v,
    tempBuffer := c.tempBuffer ++ [v] }
  if c'.tempBufferSize ≤ (c'.tempBuffer.length : Int) then processBandData filt c' else c'

/-- Intermediate shape of a coordinator that started from
`freshCoordinator`, has accumulated the samples `processed` in its batch
buffer, and has not yet triggered a band recompute. -/
def BatchPhase (processed : List ℚ) (c : EEGDataCoordinator) : Prop :=
  c.tempBuffer = processed ∧ c.tempBufferSize = 64 ∧ c.isProcessing = true ∧
    c.bufferSize = 1000 ∧ c.fbp.rawEegBuffer = [] ∧ c.fbp.recomputeCount = 0 ∧
    c.fbp.bufferSize = 1000

/-- `EEGDataCoordinator.set_temp_buffer_size`:
`self.temp_buffer_size = max(16, min(size, 256))`. -/
def setTempBufferSize (c : EEGDataCoordinator) (size : Int) : EEGDataCoordinator :=
  { c with tempBufferSize := max 16 (min size 256) }

/-! ### Record accumulators (`src/services/data_processor.py`) -/

/-- Buffers of `RawEEGProcessor` (timestamps abstracted as rationals). -/
structure RawEEGProcessor where
  maxBufferSize : Nat
  eegBuffer : List ℚ
  timestampBuffer : List ℚ

/-- `RawEEGProcessor.clear_buffer`. -/
def clearRawEEGBuffer (p : RawEEGProcessor) : RawEEGProcessor :=
  { p with eegBuffer := [], timestampBuffer := [] }

/-- State of `SignalQualityProcessor`. -/
structure SignalQualityProcessor where
  latestSignalQuality : Nat
deriving DecidableEq, Repr

/-- `SignalQualityProcessor.clear_buffer` (resets the latest value to 0). -/
def clearSignalQualityBuffer (_p : SignalQualityProcessor) : SignalQualityProcessor :=
  ⟨0⟩

/-- State of `AttentionMeditationProcessor`. -/
structure AttentionMeditationProcessor where
  latestAttention : Nat
  latestMeditation : Nat
deriving DecidableEq, Repr

/-- `AttentionMeditationProcessor.clear_buffer`. -/
def clearAttMedBuffer (_p : AttentionMeditationProcessor) : AttentionMeditationProcessor :=
  ⟨0, 0⟩

/-- State of `EEGPowerProcessor`: `latest_power_data`, a dict over the eight
fixed band names in fixed order, modelled as a list of eight values. -/
structure EEGPowerProcessor where
  latestPowerData : List ℚ
deriving DecidableEq, Repr

/-- `EEGPowerProcessor.clear_buffer` (all eight bands reset to 0). -/
def clearPowerBuffer (_p : EEGPowerProcessor) : EEGPowerProcessor :=
  ⟨List.replicate 8 0⟩

/-- The `absolute_power`/`relative_power` parts of the dict returned by
`EEGPowerProcessor.process_data`. -/
structure PowerResult where
  absolutePower : List ℚ
  relativePower : List ℚ
deriving DecidableEq, Repr

/-- `EEGPowerProcessor.process_data`: when given exactly 8 power values,
install them as the latest data and derive relative power as
`value / total_power if total_power > 0 else 0`; otherwise return nothing
and leave the state alone. -/
def processDataPower (p : EEGPowerProcessor) (power : List ℚ) :
    EEGPowerProcessor × Option PowerResult :=
  if power.length = 8 then
    let total := power.sum
    (⟨power⟩, some ⟨power, power.map fun x => if 0 < total then x / total else 0⟩)
  else
    (p, none)

/-- `DataProcessorManager.processors`: one processor per record kind
(`'attention'` and `'meditation'` hold two distinct
`AttentionMeditationProcessor` instances). -/
structure DataProcessorManager where
  rawEeg : RawEEGProcessor
  signalQuality : SignalQualityProcessor
  attentionProc : AttentionMeditationProcessor
  meditationProc : AttentionMeditationProcessor
  eegPower : EEGPowerProcessor

/-- `DataProcessorManager.clear_all_buffers`: clear every registered
processor. -/
def clearAllBuffers (m : DataProcessorManager) : DataProcessorManager :=
  ⟨clearRawEEGBuffer m.rawEeg, clearSignalQualityBuffer m.signalQuality,
    clearAttMedBuffer m.attentionProc, clearAttMedBuffer m.meditationProc,
    clearPowerBuffer m.eegPower⟩

/-! ## Helper lemmas about the decoder -/

theorem runState_append (s : ParserState) (xs ys : List Nat) :
    runState s (xs ++ ys) = runState (runState s xs) ys :=
  List.foldl_append _ _ _ _

theorem runOut_append (s : ParserState) (xs ys : List Nat) :
    runOut s (xs ++ ys) = runOut s xs ++ runOut (runState s xs) ys := by
  induction xs generalizing s with
  | nil => simp [runOut, runState]
  | cons b l ih =>
    show stepOut s b ++ runOut (stepState s b) (l ++ ys) = _
    rw [ih]
    simp [runOut, runState, List.append_assoc]

theorem feedCalls_eq_run (s : ParserState) (cs : List (List Nat)) :
    feedCalls s cs = (runState s cs.flatten, runOut s cs.flatten) := by
  induction cs generalizing s with
  | nil => simp [feedCalls, runState, runOut]
  | cons c cs ih =>
    simp [feedCalls, ih, List.flatten, runState_append, runOut_append]

/-- Bytes different from the sync marker leave a searching parser unchanged. -/
theorem run_junk (s : ParserState) (hs : s.state = 0) (g : List Nat)
    (hg : ∀ x ∈ g, x ≠ 0xAA) :
    runState s g = s ∧ runOut s g = [] := by
  induction g with
  | nil => exact ⟨rfl, rfl⟩
  | cons x l ih =>
    have hx : x ≠ 0xAA := hg x (by simp)
    have hstep : parseByte s x = (s, []) := by
      simp [parseByte, hs, hx]
    have h1 : stepState s x = s := by simp [stepState, hstep]
    have h2 : stepOut s x = [] := by simp [stepOut, hstep]
    have ihl := ih fun y hy => hg y (by simp [hy])
    constructor
    · show runState (stepState s x) l = s
      rw [h1]; exact ihl.1
    · show stepOut s x ++ runOut (stepState s x) l = []
      rw [h1, h2, ihl.2]; rfl

/-- Feeding the payload bytes while in the receive-payload state accumulates
them and their sum, ending in the checksum state. -/
theorem run_payload (B : List Nat) (p : List Nat) (c : Nat) (L : Nat)
    (hB : B ≠ []) (hL : L = p.length + B.length) :
    runState ⟨3, L, p, c⟩ B = ⟨4, L, p ++ B, c + B.sum⟩ ∧
      runOut ⟨3, L, p, c⟩ B = [] := by
  induction B generalizing p c with
  | nil => exact absurd rfl hB
  | cons b B' ih =>
    by_cases hB' : B' = []
    · subst hB'
      have hlen : (p ++ [b]).length = L := by simp [hL]
      have hstep : parseByte ⟨3, L, p, c⟩ b
          = (⟨4, L, p ++ [b], c + b⟩, []) := by
        simp [parseByte, hlen]
      constructor
      · show runState (stepState _ b) [] = _
        simp [runState, stepState, hstep]
      · show stepOut _ b ++ runOut (stepState _ b) [] = []
        simp [stepOut, runOut, hstep]
    · have hne : B'.length ≠ 0 := fun h => hB' (List.length_eq_zero.mp h)
      have hlen : ¬(p ++ [b]).length = L := by
        simp only [List.length_cons] at hL
        simp only [List.length_append, List.length_cons, List.length_nil]
        omega
      have hstep : parseByte ⟨3, L, p, c⟩ b
          = (⟨3, L, p ++ [b], c + b⟩, []) := by
        simp only [List.length_cons] at hL
        simp [parseByte]
        omega
      have hL' : L = (p ++ [b]).length + B'.length := by
        simp only [List.length_cons] at hL
        simp only [List.length_append, List.length_cons, List.length_nil]
        omega
      have ihr := ih (p ++ [b]) (c + b) hB' hL'
      constructor
      · show runState (stepState _ b) B' = _
        rw [show stepState ⟨3, L, p, c⟩ b = ⟨3, L, p ++ [b], c + b⟩ by
          simp [stepState, hstep]]
        rw [ihr.1]
        simp [List.sum_cons, add_assoc]
      · show stepOut _ b ++ runOut (stepState _ b) B' = []
        rw [show stepState ⟨3, L, p, c⟩ b = ⟨3, L, p ++ [b], c + b⟩ by
          simp [stepState, hstep]]
        rw [ihr.2]
        simp [stepOut, hstep]

/-- A full frame (sync pair, length byte, non-empty payload, arbitrary
trailing byte) fed to a searching parser: the payload's records are emitted
exactly when the trailing byte is the inverted checksum, and the parser
always returns to sync search. -/
theorem run_frame (s : ParserState) (hs : s.state = 0) (B : List Nat)
    (hB : B ≠ []) (C : Nat) :
    runState s ([0xAA, 0xAA, B.length] ++ B ++ [C]) = ⟨0, B.length, B, B.sum⟩ ∧
      runOut s ([0xAA, 0xAA, B.length] ++ B ++ [C])
        = (if C = calcChecksum B.sum then parsePayload B else []) := by
  have h1 : stepState s 0xAA = { s with state := 1 } := by
    simp [stepState, parseByte, hs]
  have h2 : stepState { s with state := 1 } 0xAA = { s with state := 2 } := by
    simp [stepState, parseByte]
  have h3 : stepState { s with state := 2 } B.length
      = ⟨3, B.length, [], 0⟩ := by
    simp [stepState, parseByte]
  have hpay := run_payload B [] 0 B.length hB (by simp)
  simp only [List.nil_append, Nat.zero_add] at hpay
  have h5 : stepState ⟨4, B.length, B, B.sum⟩ C = ⟨0, B.length, B, B.sum⟩ := by
    simp [stepState, parseByte, apply_ite]
  have o5 : stepOut ⟨4, B.length, B, B.sum⟩ C
      = (if C = calcChecksum B.sum then parsePayload B else []) := by
    simp [stepOut, parseByte, apply_ite]
    split_ifs with h <;> simp [h]
  have hsplit : [0xAA, 0xAA, B.length] ++ B ++ [C]
      = 0xAA :: 0xAA :: B.length :: (B ++ [C]) := by
    simp
  constructor
  · rw [hsplit]
    show runState (stepState s 0xAA) (0xAA :: B.length :: (B ++ [C])) = _
    rw [h1]
    show runState (stepState _ 0xAA) (B.length :: (B ++ [C])) = _
    rw [h2]
    show runState (stepState _ B.length) (B ++ [C]) = _
    rw [h3, runState_append, hpay.1]
    show stepState _ _ = _
    exact h5
  · rw [hsplit]
    show stepOut s 0xAA ++ runOut (stepState s 0xAA) _ = _
    rw [h1]
    have o1 : stepOut s 0xAA = [] := by simp [stepOut, parseByte, hs]
    rw [o1]
    show [] ++ (stepOut _ 0xAA ++ runOut (stepState _ 0xAA) _) = _
    rw [h2]
    have o2 : stepOut { s with state := 1 } 0xAA = [] := by simp [stepOut, parseByte]
    rw [o2]
    show [] ++ ([] ++ (stepOut _ B.length ++ runOut (stepState _ B.length) _)) = _
    rw [h3]
    have o3 : stepOut { s with state := 2 } B.length = [] := by
      simp [stepOut, parseByte]
    rw [o3, runOut_append, hpay.1, hpay.2]
    show [] ++ ([] ++ ([] ++ ([] ++ (stepOut _ _ ++ runOut (stepState _ _) [])))) = _
    rw [h5, o5]
    simp [runOut]

/-- A correctly framed non-empty packet fed to a searching parser is decoded
in full: the parser emits exactly the payload's records and ends searching
for the next sync pair. -/
theorem run_packet (s : ParserState) (hs : s.state = 0) (B : List Nat)
    (hB : B ≠ []) :
    runState s (packetOf B) = ⟨0, B.length, B, B.sum⟩ ∧
      runOut s (packetOf B) = parsePayload B := by
  have h := run_frame s hs B hB (calcChecksum B.sum)
  have hsplit : packetOf B = [0xAA, 0xAA, B.length] ++ B ++ [calcChecksum B.sum] := rfl
  rw [hsplit]
  exact ⟨h.1, by rw [h.2, if_pos rfl]⟩

/-- Any stream of framed packets interleaved with non-sync spurious bytes is
decoded into exactly the packets' records, in order, ending in sync search. -/
theorem run_goodStream (segs : List (List Nat × List Nat)) (s : ParserState)
    (hs : s.state = 0)
    (hg : ∀ gB ∈ segs, ∀ x ∈ gB.1, x ≠ 0xAA)
    (hB : ∀ gB ∈ segs, gB.2 ≠ []) :
    (runState s (goodStream segs)).state = 0 ∧
      runOut s (goodStream segs)
        = (segs.map fun gB => parsePayload gB.2).flatten := by
  induction segs generalizing s with
  | nil => exact ⟨hs, rfl⟩
  | cons gB rest ih =>
    obtain ⟨g, B⟩ := gB
    have hjunk := run_junk s hs g (hg (g, B) (by simp))
    have hpk := run_packet s hs B (hB (g, B) (by simp))
    have hsplit : goodStream ((g, B) :: rest)
        = g ++ (packetOf B ++ goodStream rest) := by
      simp [goodStream]
    have hstate0 : (runState s (g ++ (packetOf B ++ goodStream rest)))
        = runState (⟨0, B.length, B, B.sum⟩ : ParserState) (goodStream rest) := by
      rw [runState_append, hjunk.1, runState_append, hpk.1]
    have ihr := ih (⟨0, B.length, B, B.sum⟩ : ParserState) rfl
      (fun x hx => hg x (by simp [hx])) (fun x hx => hB x (by simp [hx]))
    constructor
    · rw [hsplit, hstate0]
      exact ihr.1
    · rw [hsplit, runOut_append, hjunk.1, hjunk.2, runOut_append, hpk.1,
        hpk.2, ihr.2]
      simp

/-! ## Claim theorems -/

/-- C1 (amended to non-empty payloads): after the sync pair, a length byte
equal to `len(B)` with `1 ≤ len(B) ≤ 255`, the payload `B` and a trailing
byte `C`, the decoder emits the payload's parsed records iff
`C = (~sum(B)) & 0xFF`, emits nothing for any other `C`, and in either case
returns to sync search (state 0). -/
theorem c1_checksum_gate (B : List Nat) (C : Nat) (hB : B ≠ [])
    (_hlen : B.length ≤ 255) (_hbytes : ∀ x ∈ B, x ≤ 255) (_hC : C ≤ 255) :
    runOut freshParser ([0xAA, 0xAA, B.length] ++ B ++ [C])
      = (if C = calcChecksum B.sum then parsePayload B else []) ∧
      (runState freshParser ([0xAA, 0xAA, B.length] ++ B ++ [C])).state = 0 := by
  have h := run_frame freshParser rfl B hB C
  exact ⟨h.2, by rw [h.1]⟩

/-- Witness for C1 at the payload `[0x80, 0x02, 0x01]` with its correct
checksum `0x7C`. -/
theorem c1_checksum_gate_witness :
    ([0x80, 0x02, 0x01] : List Nat) ≠ [] ∧
      runOut freshParser
          ([0xAA, 0xAA, ([0x80, 0x02, 0x01] : List Nat).length]
            ++ [0x80, 0x02, 0x01] ++ [0x7C])
        = (if (0x7C : Nat) = calcChecksum ([0x80, 0x02, 0x01] : List Nat).sum
            then parsePayload [0x80, 0x02, 0x01] else []) :=
  ⟨by decide,
    (c1_checksum_gate [0x80, 0x02, 0x01] 0x7C (by decide) (by decide)
      (by decide) (by decide)).1⟩

/-- C1 counterexample: for the empty payload (declared length byte 0) and
trailing byte `0x00` (which is not the checksum `0xFF` of the empty payload),
the claim says the decoder emits nothing and returns to state 0; the decoder
does emit nothing, but it is left stuck in state 3 — the length check
`len(payload_data) == payload_length` runs only after a byte has been
appended, so `1 == 0` never holds. -/
theorem c1_zero_length_counterexample :
    runOut freshParser [0xAA, 0xAA, 0x00, 0x00] = [] ∧
      (0 : Nat) ≠ calcChecksum ([] : List Nat).sum ∧
      (runState freshParser [0xAA, 0xAA, 0x00, 0x00]).state = 3 ∧
      (runState freshParser [0xAA, 0xAA, 0x00, 0x00]).state ≠ 0 := by
  decide

/-- C2 (amended: spurious bytes must differ from the sync byte `0xAA`, and
payloads are non-empty): a byte sequence made of validly framed packets,
interleaved with arbitrary non-sync spurious bytes and split into arbitrary
chunks across successive `parse_stream` calls, yields exactly the packets'
decoded records in order — the parser state persists across calls and the
parser ends searching for sync. -/
theorem c2_stream_resync (segs : List (List Nat × List Nat)) (tail : List Nat)
    (chunks : List (List Nat))
    (hg : ∀ gB ∈ segs, ∀ x ∈ gB.1, x ≤ 255 ∧ x ≠ 0xAA)
    (hB : ∀ gB ∈ segs, gB.2 ≠ [] ∧ gB.2.length ≤ 255 ∧ ∀ x ∈ gB.2, x ≤ 255)
    (ht : ∀ x ∈ tail, x ≤ 255 ∧ x ≠ 0xAA)
    (hc : chunks.flatten = goodStream segs ++ tail) :
    (feedCalls freshParser chunks).2
      = (segs.map fun gB => parsePayload gB.2).flatten ∧
      (feedCalls freshParser chunks).1.state = 0 := by
  rw [feedCalls_eq_run, hc]
  have hgs := run_goodStream segs freshParser rfl
    (fun gB h x hx => (hg gB h x hx).2) (fun gB h => (hB gB h).1)
  have hjunk := run_junk (runState freshParser (goodStream segs)) hgs.1 tail
    (fun x hx => (ht x hx).2)
  constructor
  · rw [runOut_append, hgs.2, hjunk.2]
    simp
  · rw [runState_append, hjunk.1]
    exact hgs.1

/-- Witness for C2: one spurious byte, then a packet split across two
`parse_stream` calls. -/
theorem c2_stream_resync_witness :
    ([[0x01, 0xAA, 0xAA, 0x03, 0x80], [0x02, 0x01, 0x7C]] : List (List Nat)).flatten
        = goodStream [([0x01], [0x80, 0x02, 0x01])] ++ [] ∧
      (feedCalls freshParser [[0x01, 0xAA, 0xAA, 0x03, 0x80], [0x02, 0x01, 0x7C]]).2
        = ([([0x01], [0x80, 0x02, 0x01])].map
            fun gB => parsePayload gB.2).flatten :=
  ⟨by decide,
    (c2_stream_resync [([0x01], [0x80, 0x02, 0x01])] [] _
      (by decide) (by decide) (by decide) (by decide)).1⟩

/-- C2 counterexample: a single spurious `0xAA` immediately before a valid
packet makes the decoder treat the packet's second sync byte as a length byte
(0xAA = 170), swallowing the packet: a stream containing one validly framed
packet yields none of its records. -/
theorem c2_resync_counterexample :
    runOut freshParser ([0xAA] ++ [0xAA, 0xAA, 0x03, 0x80, 0x02, 0x01, 0x7C]) = [] ∧
      runOut freshParser [0xAA, 0xAA, 0x03, 0x80, 0x02, 0x01, 0x7C]
        = parsePayload [0x80, 0x02, 0x01] ∧
      parsePayload [0x80, 0x02, 0x01] ≠ [] :=
  ⟨by decide, rfl, by decide⟩

/-- C3 counterexample: the spec's own example packet
`[0xAA,0xAA,0x04,0x80,0x02,0x01,0x02,0x79]` is rejected — the checksum of the
payload `[0x80,0x02,0x01,0x02]` is `0x7A`, not `0x79`, so the decoder emits no
record from it. -/
theorem c3_spec_packet_rejected :
    runOut freshParser [0xAA, 0xAA, 0x04, 0x80, 0x02, 0x01, 0x02, 0x79] = [] ∧
      calcChecksum (0x80 + 0x02 + 0x01 + 0x02) = 0x7A := by
  decide

/-- C3 (amended: the correct trailing checksum byte is `0x7A`): with it the
packet is accepted and exactly one raw-EEG record is emitted, with raw value
`0x0201 = 513` and microvolts `513 * 0.516 = 264.708`. -/
theorem c3_corrected_packet :
    runOut freshParser [0xAA, 0xAA, 0x04, 0x80, 0x02, 0x01, 0x02, 0x7A]
      = [.rawEeg 513 (66177 / 250)] ∧
      (66177 / 250 : ℚ) = 513 * (129 / 250) := by
  constructor
  · simp [runOut, stepOut, stepState, parseByte, parsePayload, parsePayloadAux,
      calcChecksum, freshParser]
    norm_num
  · norm_num

/-- C4 (amended: the bound requires every declared length byte to be
non-zero): the invariant — payload length a byte value, accumulated payload
bytes never exceeding it — holds initially and is preserved by every byte
step whose length byte (consumed in state 2) is at least 1. -/
theorem c4_length_invariant :
    ParserInv freshParser ∧
      ∀ (s : ParserState) (b : Nat), ParserInv s → b ≤ 255 →
        (s.state = 2 → 1 ≤ b) → ParserInv (stepState s b) := by
  constructor
  · exact ⟨by simp [freshParser], by simp [freshParser], by simp [freshParser]⟩
  · intro s b hInv hb h2
    obtain ⟨hL, hlen, hstrict⟩ := hInv
    simp only [stepState, parseByte]
    split_ifs <;>
      first
        | exact ⟨hL, hlen, hstrict⟩
        | (refine ⟨?_, ?_, ?_⟩ <;> simp_all [ParserInv, List.length_append] <;> omega)

/-- Witness for C4: a step out of state 2 on the length byte 4. -/
theorem c4_length_invariant_witness :
    ParserInv freshParser ∧ ParserInv (stepState ⟨2, 0, [], 0⟩ 4) :=
  ⟨c4_length_invariant.1,
    c4_length_invariant.2 ⟨2, 0, [], 0⟩ 4
      ⟨by decide, by decide, fun h => absurd h (by decide)⟩ (by decide)
      (fun _ => by decide)⟩

/-- C4 counterexample: a packet declaring length 0 — after the stream
`[0xAA, 0xAA, 0x00, 0x07]` the parser has accumulated 1 payload byte while
the declared payload length is 0, violating the claimed bound. -/
theorem c4_zero_length_overflow :
    (runState freshParser [0xAA, 0xAA, 0x00, 0x07]).payloadLength = 0 ∧
      (runState freshParser [0xAA, 0xAA, 0x00, 0x07]).payloadData.length = 1 := by
  decide

/-! ## Helper lemmas about the coordinator and band engine -/

/-- While fewer than the 64-sample batch threshold has accumulated, each raw
sample only grows the batch buffer; the band engine is untouched. -/
theorem batch_fill (filt : Band → List ℚ → ℚ) (xs : List ℚ) :
    ∀ (c : EEGDataCoordinator) (p : List ℚ), BatchPhase p c →
      p.length + xs.length ≤ 63 →
      BatchPhase (p ++ xs) (xs.foldl (processEegUv filt) c) := by
  induction xs with
  | nil =>
    intro c p h _
    simpa using h
  | cons v t ih =>
    intro c p h hlen
    obtain ⟨htemp, hsize, hproc, hbuf, hraw, hcount, hfbpbuf⟩ := h
    have hstep : BatchPhase (p ++ [v]) (processEegUv filt c v) := by
      simp only [processEegUv]
      split
      · rename_i hcond
        exfalso
        rw [hsize, htemp] at hcond
        simp only [List.length_append, List.length_cons, List.length_nil] at hcond
        simp only [List.length_cons] at hlen
        omega
      · exact ⟨by rw [htemp], hsize, hproc, hbuf, hraw, hcount, hfbpbuf⟩
    have hnext := ih (processEegUv filt c v) (p ++ [v]) hstep
      (by simp only [List.length_append, List.length_cons, List.length_nil] at hlen ⊢; omega)
    rw [List.foldl_cons]
    rw [List.append_cons p v t]
    exact hnext

/-- Feeding up to 64 samples into a band engine whose ring buffer started
empty enough: the buffer grows one-for-one and a recompute fires exactly when
the 64th buffered sample arrives. -/
theorem band_fill (filt : Band → List ℚ → ℚ) (ys : List ℚ) :
    ∀ (p : FrequencyBandProcessor), p.bufferSize = 1000 →
      p.rawEegBuffer.length + ys.length ≤ 64 →
      (ys.foldl (addEegData filt) p).rawEegBuffer.length
          = p.rawEegBuffer.length + ys.length ∧
        (ys.foldl (addEegData filt) p).recomputeCount
          = p.recomputeCount
            + (if p.rawEegBuffer.length + ys.length = 64 ∧ ys ≠ [] then 1 else 0) ∧
        (ys.foldl (addEegData filt) p).bufferSize = 1000 := by
  induction ys with
  | nil =>
    intro p hb _
    simp [hb]
  | cons v t ih =>
    intro p hb hlen
    simp only [List.length_cons] at hlen
    have hgrow : (dequeAppend p.bufferSize p.rawEegBuffer v).length
        = p.rawEegBuffer.length + 1 := by
      unfold dequeAppend
      rw [if_neg]
      · simp
      · simp only [List.length_append, List.length_cons, List.length_nil, hb]
        omega
    rw [List.foldl_cons]
    by_cases hfull : p.rawEegBuffer.length + 1 = 64
    · -- the appended sample is the 64th: a recompute fires now and t = []
      have ht : t = [] := by
        rcases t with _ | ⟨x, t'⟩
        · rfl
        · exfalso; simp at hlen; omega
      subst ht
      have hstep : addEegData filt p v
          = processFrequencyBands filt
              { p with rawEegBuffer := dequeAppend p.bufferSize p.rawEegBuffer v } := by
        simp only [addEegData]
        rw [if_pos]
        rw [hgrow, hfull]
      rw [hstep]
      simp only [List.foldl_nil, processFrequencyBands]
      rw [if_neg (by rw [hgrow, hfull]; omega)]
      refine ⟨?_, ?_, ?_⟩
      · rw [hgrow]; simp
      · simp [hfull]
      · exact hb
    · -- fewer than 64 samples buffered: no recompute on this sample
      have hlt : p.rawEegBuffer.length + 1 < 64 := by omega
      have hstep : addEegData filt p v
          = { p with rawEegBuffer := dequeAppend p.bufferSize p.rawEegBuffer v } := by
        simp only [addEegData]
        rw [if_neg]
        rw [hgrow]
        omega
      rw [hstep]
      have hrec := ih { p with rawEegBuffer := dequeAppend p.bufferSize p.rawEegBuffer v }
        hb (by rw [hgrow]; omega)
      rw [hgrow] at hrec
      refine ⟨by rw [hrec.1]; simp only [List.length_cons]; omega, ?_, hrec.2.2⟩
      rw [hrec.2.1]
      rcases t with _ | ⟨x, t'⟩
      · simp
        omega
      · simp only [ne_eq, List.cons_ne_nil, not_false_iff, and_true,
          List.length_cons]
        split_ifs <;> first | rfl | omega

/-- The sample that fills the batch buffer to its 64-sample threshold
triggers exactly one band-engine recompute and empties the batch buffer. -/
theorem batch_trigger (filt : Band → List ℚ → ℚ) (c : EEGDataCoordinator)
    (p : List ℚ) (v : ℚ) (h : BatchPhase p c) (hp : p.length = 63) :
    (processEegUv filt c v).fbp.recomputeCount = 1 ∧
      (processEegUv filt c v).tempBuffer = [] ∧
      (processEegUv filt c v).tempBufferSize = 64 := by
  obtain ⟨htemp, hsize, hproc, hbuf, hraw, hcount, hfbpbuf⟩ := h
  have hlen64 : (c.tempBuffer ++ [v]).length = 64 := by
    simp [htemp, hp]
  simp only [processEegUv]
  split
  · -- the threshold is reached: _process_band_data runs
    simp only [processBandData]
    split
    · rename_i hcond
      exfalso
      rw [hproc, hlen64, hsize] at hcond
      simp at hcond
    · have hband := band_fill filt (c.tempBuffer ++ [v]) c.fbp hfbpbuf
        (by rw [hraw, hlen64]; simp)
      refine ⟨?_, rfl, hsize⟩
      rw [hband.2.1, hraw, hcount, hlen64]
      simp
  · rename_i hcond
    exfalso
    rw [hsize, hlen64] at hcond
    simp at hcond

/-- A sample arriving into an empty batch buffer leaves the band engine
untouched. -/
theorem post_trigger_step (filt : Band → List ℚ → ℚ) (c : EEGDataCoordinator)
    (v : ℚ) (h1 : c.tempBuffer = []) (h2 : c.tempBufferSize = 64) :
    (processEegUv filt c v).fbp = c.fbp := by
  simp only [processEegUv]
  split
  · rename_i hcond
    exfalso
    rw [h2, h1] at hcond
    simp at hcond
  · rfl

/-- C5: from a freshly constructed coordinator (empty batch buffer, empty
band-engine buffer, batch threshold 64), processing exactly 65 raw samples
one-by-one runs exactly one frequency-band recompute — not 65 and not 0. -/
theorem c5_one_recompute (filt : Band → List ℚ → ℚ) (xs : List ℚ)
    (hlen : xs.length = 65) :
    (xs.foldl (processEegUv filt) freshCoordinator).fbp.recomputeCount = 1 := by
  have hsplit : xs.take 63 ++ xs.drop 63 = xs := List.take_append_drop 63 xs
  have hlas : (xs.take 63).length = 63 := by simp [hlen]
  have hlrest : (xs.drop 63).length = 2 := by simp [hlen]
  obtain ⟨b, c, hbc⟩ := List.length_eq_two.mp hlrest
  have hfresh : BatchPhase [] freshCoordinator :=
    ⟨rfl, rfl, rfl, rfl, rfl, rfl, rfl⟩
  have h63 := batch_fill filt (xs.take 63) freshCoordinator [] hfresh
    (by rw [hlas]; simp)
  simp only [List.nil_append] at h63
  have hxs : xs = xs.take 63 ++ (b :: [c]) := by rw [← hbc, hsplit]
  rw [hxs, List.foldl_append, List.foldl_cons, List.foldl_cons, List.foldl_nil]
  set c63 := (xs.take 63).foldl (processEegUv filt) freshCoordinator with hc63
  have htrig := batch_trigger filt c63 (xs.take 63) b h63 hlas
  have hlast := post_trigger_step filt (processEegUv filt c63 b) c
    htrig.2.1 htrig.2.2
  rw [hlast]
  exact htrig.1

/-- Witness for C5: 65 zero samples with a trivial filter abstraction. -/
theorem c5_one_recompute_witness :
    (List.replicate 65 (0 : ℚ)).length = 65 ∧
      ((List.replicate 65 (0 : ℚ)).foldl
          (processEegUv fun _ _ => 0) freshCoordinator).fbp.recomputeCount = 1 :=
  ⟨by simp, c5_one_recompute (fun _ _ => 0) (List.replicate 65 0) (by simp)⟩

/-- C6 counterexample: the batch size 5 is invalid (below 16), yet
`set_temp_buffer_size` does not reject it — it mutates the coordinator
(threshold 64 becomes 16), silently installing the clamped substitute 16. -/
theorem c6_clamp_counterexample :
    freshCoordinator.tempBufferSize = 64 ∧
      (setTempBufferSize freshCoordinator 5).tempBufferSize = 16 ∧
      (setTempBufferSize freshCoordinator 5).tempBufferSize ≠ 5 := by
  refine ⟨rfl, ?_, ?_⟩ <;> decide

/-- C6 (amended): invalid batch sizes are not rejected at the API boundary;
`set_temp_buffer_size` always installs a clamped substitute — for any
requested size outside `[16, 256]` the installed threshold differs from the
request and lies in `[16, 256]`. -/
theorem c6_invalid_sizes_clamped (c : EEGDataCoordinator) (size : Int)
    (h : size < 16 ∨ 256 < size) :
    (setTempBufferSize c size).tempBufferSize ≠ size ∧
      16 ≤ (setTempBufferSize c size).tempBufferSize ∧
      (setTempBufferSize c size).tempBufferSize ≤ 256 := by
  simp only [setTempBufferSize]
  constructor
  · rcases h with h | h <;> rw [max_def, min_def] <;> split_ifs <;> omega
  · constructor <;> rw [max_def, min_def] <;> split_ifs <;> omega

/-- Witness for C6 at the invalid batch size 5. -/
theorem c6_invalid_sizes_clamped_witness :
    ((5 : Int) < 16 ∨ (256 : Int) < 5) ∧
      ((setTempBufferSize freshCoordinator 5).tempBufferSize ≠ 5 ∧
        16 ≤ (setTempBufferSize freshCoordinator 5).tempBufferSize ∧
        (setTempBufferSize freshCoordinator 5).tempBufferSize ≤ 256) :=
  ⟨Or.inl (by decide), c6_invalid_sizes_clamped freshCoordinator 5 (Or.inl (by decide))⟩

/-- C7 counterexample: at sample rate 8000 the delta band's normalized edges
`[1/8000, 1/1000]` are valid in the spec's sense (both in `(0, 1)`, ordered),
yet `_create_filters` clamps both up to `0.001`, the ordered check fails on
the clamped values, and the moving-average fallback is selected instead of a
band-pass. -/
theorem c7_valid_edges_counterexample :
    specValidEdges 8000 .delta ∧ filterChoice 8000 .delta = .movingAverage 8 := by
  constructor
  · refine ⟨?_, ?_, ?_, ?_, ?_⟩ <;> norm_num [specValidEdges, frequencyBands]
  · norm_num [filterChoice, clampNorm, frequencyBands, min_def, max_def]

/-- C7 (amended): the 4th-order band-pass is selected exactly when the
*clamped* normalized edges (each forced into `[0.001, 0.99]`) are strictly
ordered; the selected band-pass edges then always lie strictly inside
`(0, 1)` and are ordered, so `scipy.signal.butter` cannot fail and no filter
error is ever surfaced; otherwise the fixed moving-average fallback of window
size 8 is selected. -/
theorem c7_filter_selection (sampleRate : ℚ) (b : Band) :
    (clampedLow sampleRate b < clampedHigh sampleRate b →
        filterChoice sampleRate b
          = .bandpass 4 (clampedLow sampleRate b) (clampedHigh sampleRate b) ∧
        0 < clampedLow sampleRate b ∧ clampedHigh sampleRate b < 1) ∧
      (¬clampedLow sampleRate b < clampedHigh sampleRate b →
        filterChoice sampleRate b = .movingAverage 8) := by
  constructor
  · intro h
    refine ⟨?_, ?_, ?_⟩
    · simp only [clampedLow, clampedHigh] at h
      simp only [filterChoice]
      rw [if_pos h]
      rfl
    · have h1 : (0 : ℚ) < 1 / 1000 := by norm_num
      exact lt_of_lt_of_le h1 (le_max_left _ _)
    · have h2 : clampedHigh sampleRate b ≤ 99 / 100 :=
        max_le (by norm_num) (min_le_right _ _)
      exact lt_of_le_of_lt h2 (by norm_num)
  · intro h
    simp only [clampedLow, clampedHigh] at h
    simp only [filterChoice]
    rw [if_neg h]

/-- Witness for C7: the low-alpha band at the default 512 Hz sample rate. -/
theorem c7_filter_selection_witness :
    clampedLow 512 .alphaLow < clampedHigh 512 .alphaLow ∧
      (filterChoice 512 .alphaLow
          = .bandpass 4 (clampedLow 512 .alphaLow) (clampedHigh 512 .alphaLow) ∧
        0 < clampedLow 512 .alphaLow ∧ clampedHigh 512 .alphaLow < 1) :=
  ⟨by norm_num [clampedLow, clampedHigh, clampNorm, frequencyBands, min_def, max_def],
    (c7_filter_selection 512 .alphaLow).1
      (by norm_num [clampedLow, clampedHigh, clampNorm, frequencyBands, min_def, max_def])⟩

/-- C8: for eight non-negative band power values, each derived relative power
is the band's value divided by the total (with the division-by-zero
convention making every relative power 0 when the total is 0). -/
theorem c8_relative_power (p : EEGPowerProcessor) (v : List ℚ)
    (h8 : v.length = 8) (hnn : ∀ x ∈ v, 0 ≤ x) (r : PowerResult)
    (hr : (processDataPower p v).2 = some r) :
    r.absolutePower = v ∧
      r.relativePower = r.absolutePower.map (fun x => x / v.sum) ∧
      (v.sum = 0 → r.relativePower = List.replicate 8 0) := by
  simp only [processDataPower] at hr
  rw [if_pos h8] at hr
  have hre := Option.some.inj hr
  subst hre
  refine ⟨rfl, ?_, ?_⟩
  · show v.map (fun x => if 0 < v.sum then x / v.sum else 0)
        = v.map (fun x => x / v.sum)
    by_cases hs : 0 < v.sum
    · exact List.map_congr_left fun a _ => by rw [if_pos hs]
    · have hz : v.sum = 0 := le_antisymm (not_lt.mp hs) (List.sum_nonneg hnn)
      exact List.map_congr_left fun a _ => by rw [if_neg hs, hz, div_zero]
  · intro hz
    have hns : ¬0 < v.sum := by rw [hz]; exact lt_irrefl 0
    show v.map (fun x => if 0 < v.sum then x / v.sum else 0) = List.replicate 8 0
    calc v.map (fun x => if 0 < v.sum then x / v.sum else 0)
        = v.map (fun _ => 0) := List.map_congr_left fun a _ => if_neg hns
      _ = List.replicate v.length 0 := List.map_const v 0
      _ = List.replicate 8 0 := by rw [h8]

/-- Witness for C8 at eight unit power values. -/
theorem c8_relative_power_witness :
    ([1, 1, 1, 1, 1, 1, 1, 1] : List ℚ).length = 8 ∧
      (PowerResult.mk [1, 1, 1, 1, 1, 1, 1, 1]
            [1 / 8, 1 / 8, 1 / 8, 1 / 8, 1 / 8, 1 / 8, 1 / 8, 1 / 8]).relativePower
        = (PowerResult.mk [1, 1, 1, 1, 1, 1, 1, 1]
              [1 / 8, 1 / 8, 1 / 8, 1 / 8, 1 / 8, 1 / 8, 1 / 8, 1 / 8]).absolutePower.map
            (fun x => x / ([1, 1, 1, 1, 1, 1, 1, 1] : List ℚ).sum) :=
  ⟨by norm_num,
    (c8_relative_power ⟨List.replicate 8 0⟩ [1, 1, 1, 1, 1, 1, 1, 1]
        (by norm_num) (by norm_num) _
        (by norm_num [processDataPower])).2.1⟩

/-- C9: clearing any of the record accumulators, the whole accumulator
manager, or the band engine twice in succession yields exactly the state
obtained by clearing once. -/
theorem c9_clear_idempotent (p1 : RawEEGProcessor) (p2 : SignalQualityProcessor)
    (p3 : AttentionMeditationProcessor) (p4 : EEGPowerProcessor)
    (m : DataProcessorManager) (f : FrequencyBandProcessor) :
    clearRawEEGBuffer (clearRawEEGBuffer p1) = clearRawEEGBuffer p1 ∧
      clearSignalQualityBuffer (clearSignalQualityBuffer p2)
        = clearSignalQualityBuffer p2 ∧
      clearAttMedBuffer (clearAttMedBuffer p3) = clearAttMedBuffer p3 ∧
      clearPowerBuffer (clearPowerBuffer p4) = clearPowerBuffer p4 ∧
      clearAllBuffers (clearAllBuffers m) = clearAllBuffers m ∧
      clearBuffersFBP (clearBuffersFBP f) = clearBuffersFBP f :=
  ⟨rfl, rfl, rfl, rfl, rfl, rfl⟩

/-- C10: `set_temp_buffer_size(s)` installs `max(16, min(s, 256))` — requests
inside `[16, 256]` are applied as given, requests below 16 become 16, and
requests above 256 become 256, silently. -/
theorem c10_batch_size_clamp (c : EEGDataCoordinator) (size : Int) :
    (setTempBufferSize c size).tempBufferSize = max 16 (min size 256) ∧
      (16 ≤ size → size ≤ 256 → (setTempBufferSize c size).tempBufferSize = size) ∧
      (size < 16 → (setTempBufferSize c size).tempBufferSize = 16) ∧
      (256 < size → (setTempBufferSize c size).tempBufferSize = 256) := by
  refine ⟨rfl, ?_, ?_, ?_⟩ <;>
    · intro h
      try intro h'
      simp only [setTempBufferSize]
      rw [max_def, min_def]
      split_ifs <;> omega

/-- Witness for C10 at the oversized request 300. -/
theorem c10_batch_size_clamp_witness :
    (256 : Int) < 300 ∧
      (setTempBufferSize freshCoordinator 300).tempBufferSize = 256 :=
  ⟨by decide, (c10_batch_size_clamp freshCoordinator 300).2.2.2 (by decide)⟩

end EEGSys
